import Mathlib

/-!
# Verification of the pacscan package-scanning core (`src/pacscan.js`)

This file gives a shallow embedding of the pacscan module and proves (or
refutes) the frozen specification claims about it.

The embedding models:
* Node's POSIX `path.join` / `path.dirname` / `path.basename` for the
  slash-separated, already-normalised paths the library manipulates
  (no `.`/`..` segments, no trailing slashes);
* the external primitives (glob search, `pkg-dir` ancestor package lookup,
  `knockknock` caller resolution, `fs.stat`, manifest `require`) as pure
  fields of an `Env` structure -- the spec designates them black boxes whose
  synchronous and asynchronous adapters return the same results;
* the two module-level caches as explicit association-list state threaded
  through the computations;
* the recursive `_findBaseDirectory` climb with a fuel parameter (the JS
  recursion terminates because each step strictly shortens the path; `none`
  means the fuel was exhausted).
-/

namespace Pacscan

/-! ## Path model (Node `path`, POSIX flavour) -/

/-- Split a character list on `/`, keeping empty segments, exactly like
`"…".split('/')` / Node's segment view of a path. -/
def splitSlash : List Char → List (List Char)
  | [] => [[]]
  | c :: rest =>
    let r := splitSlash rest
    if c = '/' then [] :: r
    else
      match r with
      | [] => [[c]]
      | a :: as => (c :: a) :: as

/-- The slash-separated segments of a path string. -/
def pathSegs (p : String) : List String :=
  (splitSlash p.data).map String.mk

/-- Rejoin segments with `/` (inverse of `pathSegs`). -/
def joinSegs : List String → String
  | [] => ""
  | [a] => a
  | a :: rest => a ++ "/" ++ joinSegs rest

/-- Node's `path.join(a, b)` for the normalised inputs pacscan uses. -/
def pathJoin (a b : String) : String :=
  a ++ "/" ++ b

/-- Node's `path.dirname` for normalised slash-separated paths:
drop the last segment (`"a"` has dirname `"."`, `"/a"` has dirname `"/"`). -/
def dirname (p : String) : String :=
  match (pathSegs p).dropLast with
  | [] => "."
  | [""] => "/"
  | segs => joinSegs segs

/-- Node's `path.basename` for normalised slash-separated paths:
the last segment. -/
def basename (p : String) : String :=
  ((pathSegs p).getLast?).getD ""

/-- The test `parentDirName.charAt(0) === '@'` from `_findBaseDirectory`. -/
def startsWithScope (s : String) : Bool :=
  s.data.head? = some '@'

/-! ## The default JavaScript string comparison

`Array.prototype.sort()` without a comparator orders strings by their
sequences of UTF-16 code units; on the ASCII paths pacscan sorts this is
plain lexicographic comparison of code points, modelled structurally so
the kernel can evaluate it. -/

/-- Strict code-point-wise lexicographic order on character lists. -/
def charListLt : List Char → List Char → Bool
  | [], [] => false
  | [], _ :: _ => true
  | _ :: _, [] => false
  | a :: as, b :: bs =>
    if a.toNat < b.toNat then true
    else if b.toNat < a.toNat then false
    else charListLt as bs

/-- Non-strict code-point-wise lexicographic order on character lists. -/
def charListLe : List Char → List Char → Bool
  | [], _ => true
  | _ :: _, [] => false
  | a :: as, b :: bs =>
    if a.toNat < b.toNat then true
    else if b.toNat < a.toNat then false
    else charListLe as bs

/-- `a` sorts before (or ties with) `b` under JavaScript's default string
comparison. -/
def strLe (a b : String) : Bool :=
  charListLe a.data b.data

/-- `a` sorts strictly before `b` under JavaScript's default string
comparison. -/
def strLt (a b : String) : Bool :=
  charListLt a.data b.data

/-- The sort relation pacscan's enumerator uses: JavaScript's default
string comparison, as a proposition. -/
def sortLe (a b : String) : Prop :=
  strLe a b = true

instance : DecidableRel sortLe := fun a b => by
  unfold sortLe
  infer_instance

/-! ## Data model -/

/-- The fields pacscan reads from a `package.json` manifest.  `main` is
`none` when the field is absent; JavaScript truthiness of a present string
is modelled by comparing with the empty string. -/
structure Manifest where
  name : String
  version : String
  main : Option String
deriving DecidableEq, Repr

/-- A `pacscan~Package` record (`_getPackage`'s result shape).  Structure
equality is field-wise, matching the spec's by-value equality. -/
structure Package where
  directory : String
  main : Option String
  name : String
  version : String
deriving DecidableEq, Repr

/-- A caller as returned by the `knockknock` primitive: a file path and,
optionally, its owning package's information. -/
structure Caller where
  file : String
  pkg : Option Package
deriving DecidableEq, Repr

/-- The options `_parseOptions` retains.  The opaque `knockknock` options are
folded into the environment's caller list (the caller resolver is a black
box configured by them). -/
structure Options where
  includeParents : Bool
  path : Option String
deriving DecidableEq, Repr

instance {ε α : Type} [DecidableEq ε] [DecidableEq α] :
    DecidableEq (Except ε α)
  | Except.ok a, Except.ok b =>
    if h : a = b then isTrue (by rw [h])
    else isFalse (fun hc => h (Except.ok.inj hc))
  | Except.ok _, Except.error _ => isFalse (fun hc => Except.noConfusion hc)
  | Except.error _, Except.ok _ => isFalse (fun hc => Except.noConfusion hc)
  | Except.error e, Except.error f =>
    if h : e = f then isTrue (by rw [h])
    else isFalse (fun hc => h (Except.error.inj hc))

/-- The external primitives, fixed for the duration of a scan ("unmodified
filesystem").  Each field is the common mathematical result of the
corresponding synchronous and asynchronous adapters:
* `glob pattern cwd` -- matches of one glob pattern relative to `cwd`
  (with `nodir`/`nosort`, as pacscan always requests);
* `pkgDir p` -- `pkg-dir`: nearest enclosing package installation
  directory of `p`, or `none`;
* `isDir p` -- `fs.stat(p).isDirectory()`;
* `manifest d` -- `require(path.join(d, 'package.json'))`, assumed to
  succeed (pacscan only reads manifests of directories known to hold one);
* `callers` -- the `knockknock` result for pacscan's options (limit 1 is an
  override, but the primitive returns an ordered sequence). -/
structure Env where
  glob : String → String → List String
  pkgDir : String → Option String
  isDir : String → Bool
  manifest : String → Manifest
  callers : List Caller

/-- The `availablePackagesCache`: directory path ↦ sorted absolute manifest
paths.  Newer entries are prepended, so lookup-first gives `Map.set`
overwrite semantics. -/
def ACache := List (String × List String)

/-- The `parentPackageDirectoriesCache`: directory path ↦ base package
directory found for it. -/
def PCache := List (String × String)

/-- First-match association lookup (`Map.get` over our prepend-to-update
association lists). -/
def alookup {α : Type} : List (String × α) → String → Option α
  | [], _ => none
  | (k, v) :: rest, d => if k = d then some v else alookup rest d

/-- The combined module-level mutable state: both caches. -/
structure St where
  avail : List (String × List String)
  parents : List (String × String)
deriving DecidableEq, Repr

/-- `clearCache` from the module exports: empties both caches. -/
def clearCache (_st : St) : St :=
  ⟨[], []⟩

/-- The state both caches start in when the module is loaded. -/
def emptySt : St :=
  clearCache ⟨[], []⟩

/-! ## The PacScan class, translated -/

/-- `PacScan._getPackage(dirPath)`: build the package record from the
manifest.  `pkg.main ? path.join(dirPath, pkg.main) : null` -- a present
but falsy (empty-string) `main` behaves like an absent one. -/
def getPackage (env : Env) (dirPath : String) : Package :=
  let pkg := env.manifest dirPath
  { directory := dirPath
    main :=
      match pkg.main with
      | some m => if m = "" then none else some (pathJoin dirPath m)
      | none => none
    name := pkg.name
    version := pkg.version }

/-- The two glob patterns of `_findAvailablePackagePaths`. -/
def globPatterns : List String :=
  ["**/node_modules/*/package.json", "**/node_modules/@*/*/package.json"]

/-- `PacScan._findPackagePathsSync`: run each pattern in turn and
concatenate as it goes. -/
def findPackagePathsSync (env : Env) (cwd : String) : List String :=
  globPatterns.foldl (fun acc pat => acc ++ env.glob pat cwd) []

/-- `PacScan._findPackagePaths` (asynchronous): `Promise.all` over the
patterns (which preserves pattern order), then concatenate the arrays. -/
def findPackagePathsAsync (env : Env) (cwd : String) : List String :=
  (globPatterns.map (fun pat => env.glob pat cwd)).foldl
    (fun acc value => acc ++ value) []

/-- `_findPackageDirectory`: delegate to the `pkg-dir` primitive (same
result in both execution modes). -/
def findPackageDirectory (env : Env) (filePath : String) : Option String :=
  env.pkgDir filePath

/-- `_isPackageDirectory`: `filePath === dirPath` where `dirPath` is the
`pkg-dir` result (false when that result is `null`). -/
def isPackageDirectory (env : Env) (filePath : String) : Bool :=
  findPackageDirectory env filePath = some filePath

/-- `_findCaller`: the first caller reported by `knockknock` (both modes
take element `[0]` of the primitive's result). -/
def findCaller (env : Env) : Option Caller :=
  env.callers.head?

/-- `_findAvailablePackagePaths`: consult the cache, otherwise glob both
patterns (per execution mode), prepend `"package.json"` when the directory
is itself a package directory, sort lexicographically, resolve against the
base directory, and cache. -/
def findAvailablePackagePaths (env : Env) (sync : Bool)
    (ac : List (String × List String)) (dirPath : String) :
    List String × List (String × List String) :=
  match alookup ac dirPath with
  | some filePaths => (filePaths, ac)
  | none =>
    let filePaths :=
      if sync then findPackagePathsSync env dirPath
      else findPackagePathsAsync env dirPath
    let filePaths :=
      if isPackageDirectory env dirPath then "package.json" :: filePaths
      else filePaths
    let filePaths :=
      (List.insertionSort sortLe filePaths).map
        (fun filePath => pathJoin dirPath filePath)
    (filePaths, (dirPath, filePaths) :: ac)

/-- `_findBaseDirectory`: climb `node_modules` ancestry (skipping a scope
`@…` segment) to the outermost package directory.  Fuel makes the JS
recursion structural; `none` means the fuel ran out (never observed on real
layouts, where each recursive call strictly shortens the path). -/
def findBaseDirectory (env : Env) :
    Nat → List (String × String) → String →
    Option (Option String × List (String × String))
  | 0, _, _ => none
  | fuel + 1, pc, dirPath =>
    match alookup pc dirPath with
    | some cached => some (some cached, pc)
    | none =>
      match findPackageDirectory env dirPath with
      | none => some (none, pc)
      | some childDirPath =>
        let parentDirPath := dirname childDirPath
        let parentDirName := basename parentDirPath
        let parentDirPath :=
          if startsWithScope parentDirName then dirname parentDirPath
          else parentDirPath
        let parentDirName :=
          if startsWithScope parentDirName then basename parentDirPath
          else parentDirName
        if parentDirName = "node_modules" then
          match findBaseDirectory env fuel pc parentDirPath with
          | none => none
          | some (parentPkgDirPath, pc₁) =>
            some
              (some
                (match parentPkgDirPath with
                 | some p => p
                 | none => childDirPath), pc₁)
        else
          some (some childDirPath, (dirPath, childDirPath) :: pc)

/-- The pair `_resolvePackageFromPath` / `_resolvePackageFromCaller` hands
to `_resolveBaseDirectory`'s callback: the target file path (if any) and
its owning package information (if any). -/
def resolveSource (env : Env) (opts : Options) :
    Option String × Option Package :=
  match opts.path with
  | some filePath =>
    (some filePath, (findPackageDirectory env filePath).map (getPackage env))
  | none =>
    match findCaller env with
    | none => (none, none)
    | some caller => (some caller.file, caller.pkg)

/-- `_resolveBaseDirectory`: produce the base directory for the scan, or
the `MissingSourceFile` error.  The inner `Option` of the `Except.ok`
payload mirrors the nullable directory the callback receives. -/
def resolveBaseDirectory (env : Env) (opts : Options) (fuel : Nat)
    (pc : List (String × String)) :
    Option (Except String (Option String) × List (String × String)) :=
  match resolveSource env opts with
  | (none, _) =>
    some (Except.error "Could not resolve base directory as file was missing",
      pc)
  | (some filePath, none) =>
    let dirPath := if env.isDir filePath then filePath else dirname filePath
    some (Except.ok (some dirPath), pc)
  | (some _, some pkg) =>
    if opts.includeParents then
      match findBaseDirectory env fuel pc pkg.directory with
      | none => none
      | some (r, pc₁) => some (Except.ok r, pc₁)
    else
      some (Except.ok (some pkg.directory), pc)

/-- `PacScan.prototype.scan`: resolve the base directory, enumerate the
manifest paths, and build one record per path via `_getPackage` of the
path's directory (`Object.assign({}, pkg)` copies the record by value).
A `null` base directory would crash the glob primitive; that branch is
modelled as undefined (`none`), as is fuel exhaustion. -/
def scanModel (env : Env) (sync : Bool) (opts : Options) (fuel : Nat)
    (st : St) : Option (Except String (List Package) × St) :=
  match resolveBaseDirectory env opts fuel st.parents with
  | none => none
  | some (Except.error e, pc) => some (Except.error e, ⟨st.avail, pc⟩)
  | some (Except.ok none, _) => none
  | some (Except.ok (some dirPath), pc) =>
    let result := findAvailablePackagePaths env sync st.avail dirPath
    some
      (Except.ok
        (result.1.map (fun filePath => getPackage env (dirname filePath))),
      ⟨result.2, pc⟩)

/-- `module.exports` (the asynchronous entry point): `Promise.resolve` of
the scan; a synchronous throw inside the promise chain becomes a rejection
carrying the same error. -/
def scanAsyncEntry (env : Env) (opts : Options) (fuel : Nat) (st : St) :
    Option (Except String (List Package) × St) :=
  scanModel env false opts fuel st

/-- `module.exports.sync` (the synchronous entry point). -/
def scanSyncEntry (env : Env) (opts : Options) (fuel : Nat) (st : St) :
    Option (Except String (List Package) × St) :=
  scanModel env true opts fuel st

/-! ## Derived descriptions of the algorithm (used to state properties) -/

/-- The directory `_findBaseDirectory` inspects for the `node_modules`
check: the candidate's parent, or its grandparent when the parent is a
scope (`@…`) directory. -/
def adjustedParentDir (childDirPath : String) : String :=
  let parentDirPath := dirname childDirPath
  if startsWithScope (basename parentDirPath) then dirname parentDirPath
  else parentDirPath

/-- Whether one step of the `_findBaseDirectory` climb at `d` takes the
terminal (non-recursive, caching) branch. -/
def takesTerminalStep (env : Env) (d : String) : Bool :=
  match findPackageDirectory env d with
  | none => false
  | some c => basename (adjustedParentDir c) ≠ "node_modules"

/-- The concatenated raw glob results for a base directory (identical for
the synchronous and asynchronous search, which differ only in how they
concatenate per-pattern results). -/
def rawGlobs (env : Env) (d : String) : List String :=
  env.glob "**/node_modules/*/package.json" d ++
    env.glob "**/node_modules/@*/*/package.json" d

/-- The relative manifest-path list before sorting: the raw glob matches,
with the base directory's own `"package.json"` prepended when the base is
itself a package installation directory. -/
def withOwn (env : Env) (d : String) : List String :=
  if isPackageDirectory env d then "package.json" :: rawGlobs env d
  else rawGlobs env d

/-- The absolute manifest-path list a cache-missing enumeration produces. -/
def freshAvailList (env : Env) (d : String) : List String :=
  (List.insertionSort sortLe (withOwn env d)).map (pathJoin d)

/-- Validity of the parent-directory cache with respect to an environment:
every entry was produced by a terminal climb step, i.e. maps `d` to the
package directory of `d` whose (scope-adjusted) parent is not a
`node_modules` directory. -/
def PValid (env : Env) (pc : List (String × String)) : Prop :=
  ∀ d c, (d, c) ∈ pc →
    findPackageDirectory env d = some c ∧
      basename (adjustedParentDir c) ≠ "node_modules"

/-- Validity of the available-packages cache with respect to an
environment: every entry holds exactly the list a cache-missing
enumeration of its key would produce. -/
def AValid (env : Env) (ac : List (String × List String)) : Prop :=
  ∀ d v, (d, v) ∈ ac → v = freshAvailList env d

/-! ## Order properties of the JavaScript string comparison -/

theorem charListLe_total :
    ∀ as bs : List Char, charListLe as bs = true ∨ charListLe bs as = true
  | [], _ => Or.inl rfl
  | _ :: _, [] => Or.inr rfl
  | a :: as, b :: bs => by
    rcases Nat.lt_trichotomy a.toNat b.toNat with h | h | h
    · left
      simp [charListLe, h]
    · have h₂ : ¬ a.toNat < b.toNat := by omega
      have h₃ : ¬ b.toNat < a.toNat := by omega
      rcases charListLe_total as bs with ih | ih
      · left; simp [charListLe, h₂, h₃, ih]
      · right; simp [charListLe, h₂, h₃, ih]
    · right
      simp [charListLe, h]

theorem charListLe_trans :
    ∀ as bs cs : List Char, charListLe as bs = true → charListLe bs cs = true →
      charListLe as cs = true
  | [], _, _ => fun _ _ => rfl
  | _ :: _, [], _ => by intro h _; simp [charListLe] at h
  | _ :: _, _ :: _, [] => by intro _ h; simp [charListLe] at h
  | a :: as, b :: bs, c :: cs => by
    intro h₁ h₂
    simp only [charListLe] at h₁ h₂ ⊢
    split_ifs at h₁ h₂ ⊢ <;>
      first
        | rfl
        | omega
        | exact charListLe_trans as bs cs h₁ h₂

theorem charListLt_le_absurd :
    ∀ as bs : List Char, charListLt as bs = true → charListLe bs as = true →
      False
  | [], [] => by intro h _; simp [charListLt] at h
  | [], _ :: _ => by intro _ h; simp [charListLe] at h
  | _ :: _, [] => by intro h _; simp [charListLt] at h
  | a :: as, b :: bs => by
    intro h₁ h₂
    simp only [charListLt] at h₁
    simp only [charListLe] at h₂
    split_ifs at h₁ h₂ <;>
      first
        | omega
        | exact charListLt_le_absurd as bs h₁ h₂

instance : IsTotal String sortLe :=
  ⟨fun a b => charListLe_total a.data b.data⟩

instance : IsTrans String sortLe :=
  ⟨fun a b c => charListLe_trans a.data b.data c.data⟩

theorem strLt_le_absurd {a b : String} (h₁ : strLt a b = true)
    (h₂ : strLe b a = true) : False :=
  charListLt_le_absurd a.data b.data h₁ h₂

/-! ## Path algebra -/

theorem splitSlash_ne_nil : ∀ cs : List Char, splitSlash cs ≠ []
  | [] => by simp [splitSlash]
  | c :: rest => by
    simp only [splitSlash]
    have ih := splitSlash_ne_nil rest
    split
    · simp
    · match h : splitSlash rest with
      | [] => exact absurd h ih
      | a :: as => simp

theorem splitSlash_exists_cons (cs : List Char) :
    ∃ a as, splitSlash cs = a :: as := by
  match h : splitSlash cs with
  | [] => exact absurd h (splitSlash_ne_nil cs)
  | x :: xs => exact ⟨x, xs, rfl⟩

theorem splitSlash_append : ∀ xs ys : List Char,
    splitSlash (xs ++ '/' :: ys) = splitSlash xs ++ splitSlash ys
  | [], ys => by simp [splitSlash]
  | c :: xs, ys => by
    have ih := splitSlash_append xs ys
    obtain ⟨a, as, hs⟩ := splitSlash_exists_cons xs
    show splitSlash (c :: (xs ++ '/' :: ys)) = _
    by_cases hc : c = '/'
    · simp only [splitSlash, if_pos hc, ih]
      rfl
    · simp only [splitSlash, if_neg hc, ih, hs]
      rfl

theorem splitSlash_no_slash : ∀ cs : List Char, '/' ∉ cs → splitSlash cs = [cs]
  | [], _ => rfl
  | c :: rest, h => by
    have hc : ¬ c = '/' := fun hc => h (hc ▸ List.mem_cons_self c rest)
    have ih := splitSlash_no_slash rest (fun hm => h (List.mem_cons_of_mem c hm))
    simp [splitSlash, ih, hc]

theorem splitSlash_eq_single_nil : ∀ cs : List Char, splitSlash cs = [[]] → cs = []
  | [], _ => rfl
  | c :: rest, h => by
    exfalso
    obtain ⟨a, as, hs⟩ := splitSlash_exists_cons rest
    simp only [splitSlash, hs] at h
    split at h <;> simp_all

theorem joinSegs_singleton (x : String) : joinSegs [x] = x := rfl

theorem joinSegs_cons_cons (x y : String) (l : List String) :
    joinSegs (x :: y :: l) = x ++ "/" ++ joinSegs (y :: l) := rfl

theorem joinSegs_map_mk : ∀ cs : List Char,
    joinSegs ((splitSlash cs).map String.mk) = String.mk cs
  | [] => rfl
  | c :: rest => by
    have ih := joinSegs_map_mk rest
    obtain ⟨a, as, hs⟩ := splitSlash_exists_cons rest
    rw [hs] at ih
    by_cases hc : c = '/'
    · subst hc
      simp only [splitSlash, if_pos rfl, hs, List.map_cons, if_true,
        eq_self_iff_true]
      simp only [List.map_cons] at ih
      rw [joinSegs_cons_cons]
      rw [ih]
      rfl
    · simp only [splitSlash, if_neg hc, hs, List.map_cons]
      match as with
      | [] =>
        simp only [List.map_cons, List.map_nil, joinSegs_singleton] at ih ⊢
        have ha : a = rest := congrArg String.data ih
        rw [ha]
      | b :: t =>
        simp only [List.map_cons, joinSegs_cons_cons] at ih ⊢
        have hdata := congrArg String.data ih
        simp only [String.data_append] at hdata
        apply String.ext
        simp only [String.data_append]
        rw [← hdata]
        simp

theorem joinSegs_pathSegs (p : String) : joinSegs (pathSegs p) = p :=
  joinSegs_map_mk p.data

theorem pathSegs_eq_single_empty {p : String} (h : pathSegs p = [""]) :
    p = "" := by
  have h₁ := joinSegs_pathSegs p
  rw [h] at h₁
  exact h₁.symm

theorem pathSegs_ne_nil (p : String) : pathSegs p ≠ [] := by
  unfold pathSegs
  intro h
  exact splitSlash_ne_nil p.data (List.map_eq_nil_iff.mp h)

end Pacscan

namespace Pacscan

theorem data_pathJoin (a b : String) :
    (pathJoin a b).data = a.data ++ '/' :: b.data := by
  simp [pathJoin, String.data_append]

theorem pathSegs_pathJoin (a b : String) (hb : '/' ∉ b.data) :
    pathSegs (pathJoin a b) = pathSegs a ++ [b] := by
  unfold pathSegs
  rw [data_pathJoin, splitSlash_append, splitSlash_no_slash b.data hb]
  simp

theorem pathSegs_ne_single_empty {p : String} (hp : p ≠ "") :
    pathSegs p ≠ [""] :=
  fun h => hp (pathSegs_eq_single_empty h)

theorem dirname_pathJoin (a b : String) (ha : a ≠ "") (hb : '/' ∉ b.data) :
    dirname (pathJoin a b) = a := by
  unfold dirname
  rw [pathSegs_pathJoin a b hb]
  rw [show (pathSegs a ++ [b]).dropLast = pathSegs a from by simp]
  split
  · exact absurd (by assumption) (pathSegs_ne_nil a)
  · exact absurd (by assumption) (pathSegs_ne_single_empty ha)
  · exact joinSegs_pathSegs a

theorem getLast?_map {α β : Type} (f : α → β) :
    ∀ l : List α, (l.map f).getLast? = l.getLast?.map f
  | [] => rfl
  | [a] => rfl
  | a :: b :: t => by
    have ih := getLast?_map f (b :: t)
    simp only [List.map_cons] at ih ⊢
    rw [List.getLast?_cons_cons, List.getLast?_cons_cons]
    exact ih

theorem sorted_getLast?_of_strict_max :
    ∀ (l : List String) (m : String), List.Sorted sortLe l → m ∈ l →
      (∀ y ∈ l, y ≠ m → strLt y m = true) → l.getLast? = some m
  | [], m => by intro _ hm _; cases hm
  | [a], m => by
    intro _ hm _
    simp only [List.mem_singleton] at hm
    simp [hm]
  | a :: b :: t, m => by
    intro hs hm hmax
    have hcons := List.sorted_cons.mp hs
    have hmem : m ∈ b :: t := by
      rcases List.mem_cons.mp hm with h | h
      · by_cases hb : b = m
        · exact hb ▸ List.mem_cons_self b t
        · exfalso
          have h₁ : sortLe a b := hcons.1 b (List.mem_cons_self b t)
          have h₂ : strLt b m = true :=
            hmax b (List.mem_cons_of_mem a (List.mem_cons_self b t)) hb
          rw [← h] at h₁
          exact strLt_le_absurd h₂ h₁
      · exact h
    rw [List.getLast?_cons_cons]
    exact sorted_getLast?_of_strict_max (b :: t) m hcons.2 hmem
      (fun y hy hne => hmax y (List.mem_cons_of_mem a hy) hne)

theorem alookup_mem {α : Type} :
    ∀ (l : List (String × α)) (d : String) (v : α),
      alookup l d = some v → (d, v) ∈ l
  | [], _, _ => by intro h; simp [alookup] at h
  | (k, w) :: rest, d, v => by
    intro h
    simp only [alookup] at h
    split at h
    · simp_all
    · exact List.mem_cons_of_mem _ (alookup_mem rest d v h)

end Pacscan

namespace Pacscan

/-! ## Characterisation of single steps of the algorithm -/

theorem findPackagePaths_modes_eq (env : Env) (sync : Bool) (d : String) :
    (if sync then findPackagePathsSync env d else findPackagePathsAsync env d)
      = rawGlobs env d := by
  cases sync <;>
    simp [findPackagePathsSync, findPackagePathsAsync, rawGlobs, globPatterns]

theorem findAvailablePackagePaths_miss (env : Env) (sync : Bool)
    (ac : List (String × List String)) (d : String)
    (hmiss : alookup ac d = none) :
    findAvailablePackagePaths env sync ac d =
      (freshAvailList env d, (d, freshAvailList env d) :: ac) := by
  unfold findAvailablePackagePaths
  rw [hmiss]
  rw [show (if sync then findPackagePathsSync env d
      else findPackagePathsAsync env d) = rawGlobs env d
    from findPackagePaths_modes_eq env sync d]
  unfold freshAvailList withOwn
  by_cases hp : isPackageDirectory env d <;> simp [hp]

theorem findAvailablePackagePaths_hit (env : Env) (sync : Bool)
    (ac : List (String × List String)) (d : String) (v : List String)
    (hhit : alookup ac d = some v) :
    findAvailablePackagePaths env sync ac d = (v, ac) := by
  unfold findAvailablePackagePaths
  rw [hhit]

theorem findBaseDirectory_step (env : Env) (fuel : Nat)
    (pc : List (String × String)) (d c : String)
    (hmiss : alookup pc d = none)
    (hpkg : findPackageDirectory env d = some c) :
    findBaseDirectory env (fuel + 1) pc d =
      (if basename (adjustedParentDir c) = "node_modules" then
        match findBaseDirectory env fuel pc (adjustedParentDir c) with
        | none => none
        | some (r, pc₁) =>
          some (some (match r with | some p => p | none => c), pc₁)
       else some (some c, (d, c) :: pc)) := by
  unfold adjustedParentDir
  simp only [findBaseDirectory, hmiss, hpkg]
  by_cases hsc : startsWithScope (basename (dirname c)) <;>
    simp only [hsc, if_true, if_false, Bool.false_eq_true, ite_true,
      ite_false]

end Pacscan

namespace Pacscan

/-! ## Invariants of the `_findBaseDirectory` climb -/

theorem findBaseDirectory_new_keys (env : Env) :
    ∀ (fuel : Nat) (pc : List (String × String)) (d : String)
      (r : Option String) (pc' : List (String × String)),
      findBaseDirectory env fuel pc d = some (r, pc') →
      ∀ k, alookup pc' k ≠ none →
        alookup pc k ≠ none ∨ takesTerminalStep env k = true
  | 0, pc, d => by
    intro r pc' h
    simp [findBaseDirectory] at h
  | fuel + 1, pc, d => by
    intro r pc' h k hk
    cases hc : alookup pc d with
    | some cached =>
      simp only [findBaseDirectory, hc] at h
      obtain ⟨-, h₂⟩ := Prod.mk.injEq .. ▸ Option.some.inj h
      exact Or.inl (h₂ ▸ hk)
    | none =>
      cases hp : findPackageDirectory env d with
      | none =>
        simp only [findBaseDirectory, hc, hp] at h
        obtain ⟨-, h₂⟩ := Prod.mk.injEq .. ▸ Option.some.inj h
        exact Or.inl (h₂ ▸ hk)
      | some c =>
        rw [findBaseDirectory_step env fuel pc d c hc hp] at h
        by_cases hnm : basename (adjustedParentDir c) = "node_modules"
        · rw [if_pos hnm] at h
          cases hin : findBaseDirectory env fuel pc (adjustedParentDir c) with
          | none => rw [hin] at h; exact absurd h (by simp)
          | some rp =>
            obtain ⟨r₁, pc₁⟩ := rp
            rw [hin] at h
            obtain ⟨-, h₂⟩ := Prod.mk.injEq .. ▸ Option.some.inj h
            exact findBaseDirectory_new_keys env fuel pc (adjustedParentDir c)
              r₁ pc₁ hin k (h₂ ▸ hk)
        · rw [if_neg hnm] at h
          obtain ⟨-, h₂⟩ := Prod.mk.injEq .. ▸ Option.some.inj h
          rw [← h₂] at hk
          by_cases hkd : d = k
          · right
            subst hkd
            simp only [takesTerminalStep, hp]
            simp [hnm]
          · left
            simpa [alookup, hkd] using hk

end Pacscan

namespace Pacscan

/-! ## Claims C7 and C8: the scope-skip and the never-downgrade policy -/

/-- **C7.** During the `includeParents` climb, when the candidate package
directory's parent directory name begins with the namespace-scope marker
`@`, the installation-root (`node_modules`) check is applied to the
grandparent directory's name and any recursion proceeds from the
grandparent; for all other candidates the check is applied to the parent's
name and recursion proceeds from the parent. -/
theorem c7_scope_skips_to_grandparent (env : Env) (fuel : Nat)
    (pc : List (String × String)) (dirPath childDirPath : String)
    (hmiss : alookup pc dirPath = none)
    (hpkg : findPackageDirectory env dirPath = some childDirPath) :
    (startsWithScope (basename (dirname childDirPath)) = true →
      findBaseDirectory env (fuel + 1) pc dirPath =
        (if basename (dirname (dirname childDirPath)) = "node_modules" then
          match findBaseDirectory env fuel pc (dirname (dirname childDirPath))
            with
          | none => none
          | some (r, pc₁) =>
            some (some (match r with | some p => p | none => childDirPath),
              pc₁)
         else some (some childDirPath, (dirPath, childDirPath) :: pc))) ∧
    (startsWithScope (basename (dirname childDirPath)) = false →
      findBaseDirectory env (fuel + 1) pc dirPath =
        (if basename (dirname childDirPath) = "node_modules" then
          match findBaseDirectory env fuel pc (dirname childDirPath) with
          | none => none
          | some (r, pc₁) =>
            some (some (match r with | some p => p | none => childDirPath),
              pc₁)
         else some (some childDirPath, (dirPath, childDirPath) :: pc))) := by
  constructor <;> intro hsc <;>
    rw [findBaseDirectory_step env fuel pc dirPath childDirPath hmiss hpkg] <;>
    rw [show adjustedParentDir childDirPath =
        (if startsWithScope (basename (dirname childDirPath)) then
          dirname (dirname childDirPath)
         else dirname childDirPath) from rfl] <;>
    rw [hsc] <;> simp

/-- The environment used to witness C7: the caller's package sits inside a
scoped directory `@s` under a `node_modules` directory. -/
def envC7 : Env where
  glob := fun _ _ => []
  pkgDir := fun p =>
    if p = "/b/node_modules/@s/x" then some "/b/node_modules/@s/x"
    else if p = "/b/node_modules" then some "/b"
    else none
  isDir := fun _ => true
  manifest := fun _ => ⟨"m", "1.0.0", none⟩
  callers := []

theorem c7_scope_skips_to_grandparent_witness :
    alookup ([] : List (String × String)) "/b/node_modules/@s/x" = none ∧
    findPackageDirectory envC7 "/b/node_modules/@s/x" =
      some "/b/node_modules/@s/x" ∧
    startsWithScope (basename (dirname "/b/node_modules/@s/x")) = true ∧
    findBaseDirectory envC7 (2 + 1) [] "/b/node_modules/@s/x" =
      (if basename (dirname (dirname "/b/node_modules/@s/x"))
          = "node_modules" then
        match findBaseDirectory envC7 2 []
            (dirname (dirname "/b/node_modules/@s/x")) with
        | none => none
        | some (r, pc₁) =>
          some
            (some (match r with | some p => p | none => "/b/node_modules/@s/x"),
            pc₁)
       else some (some "/b/node_modules/@s/x",
        ("/b/node_modules/@s/x", "/b/node_modules/@s/x") :: [])) :=
  ⟨rfl, by decide, by decide,
    (c7_scope_skips_to_grandparent envC7 2 [] "/b/node_modules/@s/x"
      "/b/node_modules/@s/x" rfl (by decide)).1 (by decide)⟩

/-- **C8.** Once a candidate package directory exists, one step of the
climb never produces the absent value: the result is always some
directory; and when the recursive step finds nothing higher (returns the
absent value), the last candidate found before the recursion is kept. -/
theorem c8_climb_never_downgrades (env : Env) (fuel : Nat)
    (pc : List (String × String)) (dirPath childDirPath : String)
    (hmiss : alookup pc dirPath = none)
    (hpkg : findPackageDirectory env dirPath = some childDirPath) :
    (∀ r pc', findBaseDirectory env (fuel + 1) pc dirPath = some (r, pc') →
      r.isSome = true) ∧
    (∀ pc₂, basename (adjustedParentDir childDirPath) = "node_modules" →
      findBaseDirectory env fuel pc (adjustedParentDir childDirPath) =
        some (none, pc₂) →
      findBaseDirectory env (fuel + 1) pc dirPath =
        some (some childDirPath, pc₂)) := by
  constructor
  · intro r pc' hrun
    rw [findBaseDirectory_step env fuel pc dirPath childDirPath hmiss hpkg]
      at hrun
    by_cases hnm : basename (adjustedParentDir childDirPath) = "node_modules"
    · rw [if_pos hnm] at hrun
      cases hin : findBaseDirectory env fuel pc
          (adjustedParentDir childDirPath) with
      | none => rw [hin] at hrun; exact absurd hrun (by simp)
      | some rp =>
        obtain ⟨r₁, pc₁⟩ := rp
        rw [hin] at hrun
        obtain ⟨h₁, -⟩ := Prod.mk.injEq .. ▸ Option.some.inj hrun
        rw [← h₁]
        cases r₁ <;> rfl
    · rw [if_neg hnm] at hrun
      obtain ⟨h₁, -⟩ := Prod.mk.injEq .. ▸ Option.some.inj hrun
      rw [← h₁]
      rfl
  · intro pc₂ hnm hin
    rw [findBaseDirectory_step env fuel pc dirPath childDirPath hmiss hpkg,
      if_pos hnm, hin]

/-- The environment used to witness C8: a package directly under a
`node_modules` directory whose parent has no enclosing package. -/
def envC8 : Env where
  glob := fun _ _ => []
  pkgDir := fun p =>
    if p = "/n/node_modules/x" then some "/n/node_modules/x" else none
  isDir := fun _ => true
  manifest := fun _ => ⟨"m", "1.0.0", none⟩
  callers := []

theorem c8_climb_never_downgrades_witness :
    alookup ([] : List (String × String)) "/n/node_modules/x" = none ∧
    findPackageDirectory envC8 "/n/node_modules/x" =
      some "/n/node_modules/x" ∧
    basename (adjustedParentDir "/n/node_modules/x") = "node_modules" ∧
    findBaseDirectory envC8 1 [] (adjustedParentDir "/n/node_modules/x") =
      some (none, []) ∧
    findBaseDirectory envC8 (1 + 1) [] "/n/node_modules/x" =
      some (some "/n/node_modules/x", []) ∧
    (some "/n/node_modules/x" : Option String).isSome = true :=
  ⟨rfl, by decide, by decide, by decide,
    (c8_climb_never_downgrades envC8 1 [] "/n/node_modules/x"
      "/n/node_modules/x" rfl (by decide)).2 [] (by decide) (by decide),
    (c8_climb_never_downgrades envC8 1 [] "/n/node_modules/x"
      "/n/node_modules/x" rfl (by decide)).1 (some "/n/node_modules/x") []
      (by decide)⟩

end Pacscan

namespace Pacscan

/-! ## Claim C3: what the parent-directory cache records after a climb -/

/-- An environment whose layout makes the climb recurse through a nested
installation root: `/w/node_modules/a` is a package directory installed
under `/w`'s `node_modules`, and `/w` is the outermost package. -/
def envC3 : Env where
  glob := fun _ _ => []
  pkgDir := fun p =>
    if p = "/w/node_modules/a" then some "/w/node_modules/a"
    else if p = "/w/node_modules" then some "/w"
    else none
  isDir := fun _ => true
  manifest := fun _ => ⟨"m", "1.0.0", none⟩
  callers := []

/-- **C3, counterexample.** Starting the climb from `/w/node_modules/a`
recurses through the nested `node_modules` directory and returns `/w`, but
the cache afterwards holds no entry keyed by the original directory:
only the inner directory `/w/node_modules` (where the climb terminated
without recursing) was cached.  This refutes the claim that the final
result is always cached under the original directory. -/
theorem c3_cache_counterexample :
    findBaseDirectory envC3 5 [] "/w/node_modules/a" =
      some (some "/w", [("/w/node_modules", "/w")]) ∧
    alookup [("/w/node_modules", "/w")] "/w/node_modules/a" = none := by
  constructor
  · decide
  · decide

/-- **C3, amended.** After an uncached climb step at `D` completes, the
cache holds an entry keyed by `D` exactly when the step at `D` was
terminal (its scope-adjusted parent is not an installation-root
directory); when the climb recurses through a nested installation root,
no entry keyed by `D` is added. -/
theorem c3_cache_key_iff_terminal (env : Env) (fuel : Nat)
    (pc : List (String × String)) (d c : String) (r : Option String)
    (pc' : List (String × String))
    (hmiss : alookup pc d = none)
    (hpkg : findPackageDirectory env d = some c)
    (hrun : findBaseDirectory env fuel pc d = some (r, pc')) :
    alookup pc' d = if takesTerminalStep env d then some c else none := by
  cases fuel with
  | zero => simp [findBaseDirectory] at hrun
  | succ fuel =>
    rw [findBaseDirectory_step env fuel pc d c hmiss hpkg] at hrun
    by_cases hnm : basename (adjustedParentDir c) = "node_modules"
    · rw [if_pos hnm] at hrun
      have hterm : takesTerminalStep env d = false := by
        simp only [takesTerminalStep, hpkg]
        simp [hnm]
      rw [hterm]
      cases hin : findBaseDirectory env fuel pc (adjustedParentDir c) with
      | none => rw [hin] at hrun; exact absurd hrun (by simp)
      | some rp =>
        obtain ⟨r₁, pc₁⟩ := rp
        rw [hin] at hrun
        obtain ⟨-, h₂⟩ := Prod.mk.injEq .. ▸ Option.some.inj hrun
        subst h₂
        cases hval : alookup pc₁ d with
        | none => simp
        | some v =>
          exfalso
          have := findBaseDirectory_new_keys env fuel pc
            (adjustedParentDir c) r₁ pc₁ hin d (by rw [hval]; simp)
          rcases this with h | h
          · exact h hmiss
          · simp only [takesTerminalStep, hpkg] at h
            simp [hnm] at h
    · rw [if_neg hnm] at hrun
      have hterm : takesTerminalStep env d = true := by
        simp only [takesTerminalStep, hpkg]
        simp [hnm]
      rw [hterm]
      obtain ⟨-, h₂⟩ := Prod.mk.injEq .. ▸ Option.some.inj hrun
      subst h₂
      simp [alookup]

theorem c3_cache_key_iff_terminal_witness :
    alookup ([] : List (String × String)) "/w/node_modules/a" = none ∧
    findPackageDirectory envC3 "/w/node_modules/a" =
      some "/w/node_modules/a" ∧
    findBaseDirectory envC3 5 [] "/w/node_modules/a" =
      some (some "/w", [("/w/node_modules", "/w")]) ∧
    alookup [("/w/node_modules", "/w")] "/w/node_modules/a" =
      (if takesTerminalStep envC3 "/w/node_modules/a" then
        some "/w/node_modules/a"
       else none) :=
  ⟨rfl, by decide, by decide,
    c3_cache_key_iff_terminal envC3 5 [] "/w/node_modules/a"
      "/w/node_modules/a" (some "/w") [("/w/node_modules", "/w")] rfl
      (by decide) (by decide)⟩

end Pacscan

namespace Pacscan

/-! ## Claim C10: truthiness normalisation of the manifest main field -/

/-- **C10.** The produced record's `main` is the absent value exactly when
the manifest's `main` field is missing or present but falsy (the empty
string); it is joined onto the package directory precisely for a truthy
(non-empty) `main`. -/
theorem c10_main_falsy_normalised (env : Env) (d : String) :
    ((getPackage env d).main = none ↔
      ((env.manifest d).main = none ∨ (env.manifest d).main = some "")) ∧
    (∀ m : String, (env.manifest d).main = some m → m ≠ "" →
      (getPackage env d).main = some (pathJoin d m)) := by
  have hmain : (getPackage env d).main =
      (match (env.manifest d).main with
       | some m => if m = "" then none else some (pathJoin d m)
       | none => none) := rfl
  constructor
  · rw [hmain]
    cases hm : (env.manifest d).main with
    | none => simp
    | some m => by_cases he : m = "" <;> simp [he]
  · intro m hm hne
    rw [hmain, hm]
    simp [hne]

/-- Environment for the C10 witness: `/a` has a present-but-empty `main`,
`/b` a truthy one. -/
def envC10 : Env where
  glob := fun _ _ => []
  pkgDir := fun _ => none
  isDir := fun _ => true
  manifest := fun p =>
    if p = "/a" then ⟨"a", "1.0.0", some ""⟩
    else ⟨"b", "1.0.0", some "index.js"⟩
  callers := []

theorem c10_main_falsy_normalised_witness :
    (envC10.manifest "/a").main = some "" ∧
    (getPackage envC10 "/a").main = none ∧
    (envC10.manifest "/b").main = some "index.js" ∧
    (getPackage envC10 "/b").main = some (pathJoin "/b" "index.js") :=
  ⟨by decide,
    (c10_main_falsy_normalised envC10 "/a").1.mpr (Or.inr (by decide)),
    by decide,
    (c10_main_falsy_normalised envC10 "/b").2 "index.js" (by decide)
      (by decide)⟩

/-! ## Claim C9: fallback when no owning package exists -/

/-- **C9.** When a target file path was determined but no owning package
was found for it, the base directory is the file path itself if it names a
directory and its parent directory otherwise, and the `includeParents`
option has no effect on the outcome. -/
theorem c9_no_owning_package_fallback (env : Env) (opts : Options)
    (fuel : Nat) (pc : List (String × String)) (fp : String) (b : Bool)
    (hsrc : resolveSource env opts = (some fp, none)) :
    resolveBaseDirectory env ⟨b, opts.path⟩ fuel pc =
      some (Except.ok (some (if env.isDir fp then fp else dirname fp)),
        pc) := by
  have hsrc₂ : resolveSource env ⟨b, opts.path⟩ = (some fp, none) := hsrc
  unfold resolveBaseDirectory
  rw [hsrc₂]

/-- Environment for the C9 witness: `/lone/file.js` belongs to no
package and is not a directory. -/
def envC9 : Env where
  glob := fun _ _ => []
  pkgDir := fun _ => none
  isDir := fun _ => false
  manifest := fun _ => ⟨"m", "1.0.0", none⟩
  callers := []

theorem c9_no_owning_package_fallback_witness :
    resolveSource envC9 ⟨false, some "/lone/file.js"⟩ =
      (some "/lone/file.js", none) ∧
    resolveBaseDirectory envC9 ⟨true, some "/lone/file.js"⟩ 3 [] =
      some (Except.ok (some (if envC9.isDir "/lone/file.js" then
        "/lone/file.js" else dirname "/lone/file.js")), []) ∧
    resolveBaseDirectory envC9 ⟨false, some "/lone/file.js"⟩ 3 [] =
      some (Except.ok (some (if envC9.isDir "/lone/file.js" then
        "/lone/file.js" else dirname "/lone/file.js")), []) :=
  ⟨by decide,
    c9_no_owning_package_fallback envC9 ⟨false, some "/lone/file.js"⟩ 3 []
      "/lone/file.js" true (by decide),
    c9_no_owning_package_fallback envC9 ⟨false, some "/lone/file.js"⟩ 3 []
      "/lone/file.js" false (by decide)⟩

/-! ## Claim C4: the MissingSourceFile error -/

/-- **C4.** When the `path` option is absent and the caller resolver
yields no caller, both the synchronous and the asynchronous entry points
produce the same fixed error ("Could not resolve base directory as file
was missing") with the caches untouched -- no retry, no partial result. -/
theorem c4_missing_source_file (env : Env) (opts : Options) (fuel : Nat)
    (st : St) (hpath : opts.path = none) (hcallers : env.callers = []) :
    scanSyncEntry env opts fuel st =
      some (Except.error "Could not resolve base directory as file was missing",
        st) ∧
    scanAsyncEntry env opts fuel st =
      some (Except.error "Could not resolve base directory as file was missing",
        st) := by
  have hsrc : resolveSource env opts = (none, none) := by
    unfold resolveSource findCaller
    rw [hpath, hcallers]
    rfl
  refine ⟨?_, ?_⟩
  · unfold scanSyncEntry scanModel resolveBaseDirectory
    rw [hsrc]
  · unfold scanAsyncEntry scanModel resolveBaseDirectory
    rw [hsrc]

/-- Environment for the C4 witness: no caller can be resolved. -/
def envC4 : Env where
  glob := fun _ _ => []
  pkgDir := fun _ => none
  isDir := fun _ => true
  manifest := fun _ => ⟨"m", "1.0.0", none⟩
  callers := []

theorem c4_missing_source_file_witness :
    (⟨false, none⟩ : Options).path = none ∧
    envC4.callers = [] ∧
    scanSyncEntry envC4 ⟨false, none⟩ 3 emptySt =
      some (Except.error "Could not resolve base directory as file was missing",
        emptySt) ∧
    scanAsyncEntry envC4 ⟨false, none⟩ 3 emptySt =
      some (Except.error "Could not resolve base directory as file was missing",
        emptySt) :=
  ⟨rfl, rfl,
    (c4_missing_source_file envC4 ⟨false, none⟩ 3 emptySt rfl rfl).1,
    (c4_missing_source_file envC4 ⟨false, none⟩ 3 emptySt rfl rfl).2⟩

end Pacscan

namespace Pacscan

/-! ## The cache-missing scan, characterised -/

theorem withOwn_pkg (env : Env) (D : String)
    (hself : isPackageDirectory env D = true) :
    withOwn env D = "package.json" :: rawGlobs env D := by
  unfold withOwn
  rw [hself]
  simp

theorem scanModel_fresh (env : Env) (sync : Bool) (opts : Options)
    (fuel : Nat) (D : String) (pc : List (String × String))
    (hres : resolveBaseDirectory env opts fuel [] =
      some (Except.ok (some D), pc)) :
    scanModel env sync opts fuel emptySt =
      some (Except.ok ((List.insertionSort sortLe (withOwn env D)).map
          (fun r => getPackage env (dirname (pathJoin D r)))),
        ⟨[(D, freshAvailList env D)], pc⟩) := by
  simp only [scanModel, emptySt, clearCache, hres,
    findAvailablePackagePaths_miss env sync [] D rfl, freshAvailList,
    List.map_map]
  rfl

end Pacscan

namespace Pacscan

/-! ## Claim C1: position of the base directory's own record -/

/-- Environment for C1: `/app` is its own package installation directory
with a single dependency `foo` under `node_modules`. -/
def envC1 : Env where
  glob := fun pat cwd =>
    if pat = "**/node_modules/*/package.json" ∧ cwd = "/app" then
      ["node_modules/foo/package.json"]
    else []
  pkgDir := fun p => if p = "/app" then some "/app" else none
  isDir := fun _ => true
  manifest := fun d =>
    if d = "/app" then ⟨"app", "1.0.0", none⟩ else ⟨"foo", "1.0.0", none⟩
  callers := []

/-- **C1, counterexample.** `/app` is its own package installation
directory, yet the scan's first element is the dependency `foo`'s record,
not `/app`'s own record: the own `"package.json"` entry is prepended
*before* sorting and `"node_modules/…"` paths sort before it. -/
theorem c1_first_element_counterexample :
    envC1.pkgDir "/app" = some "/app" ∧
    scanSyncEntry envC1 ⟨false, some "/app"⟩ 5 emptySt =
      some (Except.ok
        [⟨"/app/node_modules/foo", none, "foo", "1.0.0"⟩,
         ⟨"/app", none, "app", "1.0.0"⟩],
        ⟨[("/app",
            ["/app/node_modules/foo/package.json", "/app/package.json"])],
          []⟩) ∧
    ([⟨"/app/node_modules/foo", none, "foo", "1.0.0"⟩,
      (⟨"/app", none, "app", "1.0.0"⟩ : Package)].head? ≠
        some (getPackage envC1 "/app")) :=
  ⟨by decide, by decide, by decide⟩

/-- **C1, amended.** For a base directory `D` that is itself a package
installation directory, `D`'s own manifest-derived record is the *last*
element of the scan result whenever every glob-matched relative path sorts
strictly before `"package.json"` (as every path under `node_modules/`
does); it is not in general the first. -/
theorem c1_amended_own_record_last (env : Env) (sync : Bool)
    (opts : Options) (fuel : Nat) (D : String) (pkgs : List Package)
    (st₁ : St) (pc : List (String × String))
    (hres : resolveBaseDirectory env opts fuel [] =
      some (Except.ok (some D), pc))
    (hrun : scanModel env sync opts fuel emptySt =
      some (Except.ok pkgs, st₁))
    (hself : isPackageDirectory env D = true)
    (hD : D ≠ "")
    (hglobs : ∀ s ∈ rawGlobs env D, strLt s "package.json" = true) :
    pkgs.getLast? = some (getPackage env D) := by
  have hfresh := scanModel_fresh env sync opts fuel D pc hres
  rw [hrun] at hfresh
  obtain ⟨h₁, -⟩ := Prod.mk.injEq .. ▸ Option.some.inj hfresh
  have hpkgs := Except.ok.inj h₁
  rw [withOwn_pkg env D hself] at hpkgs
  set sorted :=
    List.insertionSort sortLe ("package.json" :: rawGlobs env D) with hsorted
  have hlast : sorted.getLast? = some "package.json" := by
    apply sorted_getLast?_of_strict_max
    · exact List.sorted_insertionSort sortLe _
    · rw [hsorted]
      rw [List.mem_insertionSort]
      exact List.mem_cons_self _ _
    · intro y hy hne
      rw [hsorted, List.mem_insertionSort] at hy
      rcases List.mem_cons.mp hy with h | h
      · exact absurd h hne
      · exact hglobs y h
  rw [hpkgs, getLast?_map, hlast]
  have hdir : dirname (pathJoin D "package.json") = D :=
    dirname_pathJoin D "package.json" hD (by decide)
  simp [hdir]

theorem c1_amended_own_record_last_witness :
    resolveBaseDirectory envC1 ⟨false, some "/app"⟩ 5 [] =
      some (Except.ok (some "/app"), []) ∧
    isPackageDirectory envC1 "/app" = true ∧
    (∀ s ∈ rawGlobs envC1 "/app", strLt s "package.json" = true) ∧
    ([⟨"/app/node_modules/foo", none, "foo", "1.0.0"⟩,
      (⟨"/app", none, "app", "1.0.0"⟩ : Package)].getLast? =
        some (getPackage envC1 "/app")) :=
  ⟨by decide, by decide, by decide,
    c1_amended_own_record_last envC1 true ⟨false, some "/app"⟩ 5 "/app"
      [⟨"/app/node_modules/foo", none, "foo", "1.0.0"⟩,
       ⟨"/app", none, "app", "1.0.0"⟩]
      ⟨[("/app",
          ["/app/node_modules/foo/package.json", "/app/package.json"])],
        []⟩ [] (by decide) (by decide) (by decide) (by decide) (by decide)⟩

/-! ## Claim C2: the result is not value-deduplicated -/

/-- Environment for C2: the glob search reports the same manifest path for
`foo` twice (as can happen with overlapping or symlinked matches). -/
def envC2 : Env where
  glob := fun pat cwd =>
    if pat = "**/node_modules/*/package.json" ∧ cwd = "/app" then
      ["node_modules/foo/package.json", "node_modules/foo/package.json"]
    else []
  pkgDir := fun p => if p = "/app" then some "/app" else none
  isDir := fun _ => true
  manifest := fun d =>
    if d = "/app" then ⟨"app", "1.0.0", none⟩ else ⟨"foo", "1.0.0", none⟩
  callers := []

/-- **C2, counterexample.** When the glob search matches the same manifest
path twice the scan returns `foo`'s record twice: the result is *not*
value-deduplicated. -/
theorem c2_dedup_counterexample :
    scanSyncEntry envC2 ⟨false, some "/app"⟩ 5 emptySt =
      some (Except.ok
        [⟨"/app/node_modules/foo", none, "foo", "1.0.0"⟩,
         ⟨"/app/node_modules/foo", none, "foo", "1.0.0"⟩,
         ⟨"/app", none, "app", "1.0.0"⟩],
        ⟨[("/app",
            ["/app/node_modules/foo/package.json",
             "/app/node_modules/foo/package.json", "/app/package.json"])],
          []⟩) ∧
    ¬ ([⟨"/app/node_modules/foo", none, "foo", "1.0.0"⟩,
        ⟨"/app/node_modules/foo", none, "foo", "1.0.0"⟩,
        (⟨"/app", none, "app", "1.0.0"⟩ : Package)].Nodup) :=
  ⟨by decide, by decide⟩

/-- **C2, amended.** The scan applies no deduplication: it returns exactly
one record per manifest path of the (sorted) enumerated list -- including
repeated paths -- so the result's length always equals the number of
matched manifest paths (plus the base's own manifest when the base is a
package directory). -/
theorem c2_amended_no_dedup (env : Env) (sync : Bool) (opts : Options)
    (fuel : Nat) (D : String) (pkgs : List Package) (st₁ : St)
    (pc : List (String × String))
    (hres : resolveBaseDirectory env opts fuel [] =
      some (Except.ok (some D), pc))
    (hrun : scanModel env sync opts fuel emptySt =
      some (Except.ok pkgs, st₁)) :
    pkgs = (List.insertionSort sortLe (withOwn env D)).map
        (fun r => getPackage env (dirname (pathJoin D r))) ∧
    pkgs.length = (withOwn env D).length := by
  have hfresh := scanModel_fresh env sync opts fuel D pc hres
  rw [hrun] at hfresh
  obtain ⟨h₁, -⟩ := Prod.mk.injEq .. ▸ Option.some.inj hfresh
  have hpkgs := Except.ok.inj h₁
  refine ⟨hpkgs, ?_⟩
  rw [hpkgs, List.length_map, List.length_insertionSort]

theorem c2_amended_no_dedup_witness :
    resolveBaseDirectory envC2 ⟨false, some "/app"⟩ 5 [] =
      some (Except.ok (some "/app"), []) ∧
    (withOwn envC2 "/app").length = 3 ∧
    ([⟨"/app/node_modules/foo", none, "foo", "1.0.0"⟩,
      ⟨"/app/node_modules/foo", none, "foo", "1.0.0"⟩,
      (⟨"/app", none, "app", "1.0.0"⟩ : Package)].length =
        (withOwn envC2 "/app").length) :=
  ⟨by decide, by decide,
    (c2_amended_no_dedup envC2 true ⟨false, some "/app"⟩ 5 "/app"
      [⟨"/app/node_modules/foo", none, "foo", "1.0.0"⟩,
       ⟨"/app/node_modules/foo", none, "foo", "1.0.0"⟩,
       ⟨"/app", none, "app", "1.0.0"⟩]
      ⟨[("/app",
          ["/app/node_modules/foo/package.json",
           "/app/node_modules/foo/package.json", "/app/package.json"])],
        []⟩ [] (by decide) (by decide)).2⟩

end Pacscan

namespace Pacscan

/-! ## Claim C6: lexicographic ordering of the result -/

/-- **C6.** The records a scan returns are in the lexicographic order of
their manifest paths relative to the base directory: the result is the
image of a sorted permutation of the matched relative paths (plus the
base's own manifest when applicable). -/
theorem c6_records_in_sorted_order (env : Env) (sync : Bool)
    (opts : Options) (fuel : Nat) (D : String) (pkgs : List Package)
    (st₁ : St) (pc : List (String × String))
    (hres : resolveBaseDirectory env opts fuel [] =
      some (Except.ok (some D), pc))
    (hrun : scanModel env sync opts fuel emptySt =
      some (Except.ok pkgs, st₁)) :
    ∃ rel : List String, List.Sorted sortLe rel ∧ rel.Perm (withOwn env D) ∧
      pkgs = rel.map (fun r => getPackage env (dirname (pathJoin D r))) := by
  have hfresh := scanModel_fresh env sync opts fuel D pc hres
  rw [hrun] at hfresh
  obtain ⟨h₁, -⟩ := Prod.mk.injEq .. ▸ Option.some.inj hfresh
  exact ⟨List.insertionSort sortLe (withOwn env D),
    List.sorted_insertionSort sortLe _,
    List.perm_insertionSort sortLe _,
    Except.ok.inj h₁⟩

/-- Environment for the C6 witness: the `flat` fixture -- a base package
with unscoped dependencies `foo`, `bar` and scoped dependencies
`@fu/fizz`, `@fu/buzz`, `@baz/fizz`, `@baz/buzz`, all one level deep. -/
def envC6 : Env where
  glob := fun pat cwd =>
    if pat = "**/node_modules/*/package.json" ∧ cwd = "/flat" then
      ["node_modules/foo/package.json", "node_modules/bar/package.json"]
    else if pat = "**/node_modules/@*/*/package.json" ∧ cwd = "/flat" then
      ["node_modules/@fu/fizz/package.json",
       "node_modules/@fu/buzz/package.json",
       "node_modules/@baz/fizz/package.json",
       "node_modules/@baz/buzz/package.json"]
    else []
  pkgDir := fun p => if p = "/flat" then some "/flat" else none
  isDir := fun _ => true
  manifest := fun d =>
    if d = "/flat" then ⟨"flat", "1.0.0", none⟩
    else if d = "/flat/node_modules/foo" then ⟨"foo", "1.0.0", none⟩
    else if d = "/flat/node_modules/bar" then ⟨"bar", "1.0.0", none⟩
    else if d = "/flat/node_modules/@fu/fizz" then ⟨"fizz", "1.0.0", none⟩
    else if d = "/flat/node_modules/@fu/buzz" then ⟨"buzz", "1.0.0", none⟩
    else if d = "/flat/node_modules/@baz/fizz" then ⟨"fizz", "0.1.0", none⟩
    else ⟨"buzz", "0.1.0", none⟩
  callers := []

/-- C6 witness: on the `flat` fixture the scan returns exactly the seven
records, `@baz/*` before `@fu/*` before `bar` before `foo` before the base
package itself last, and the general theorem applies to it. -/
theorem c6_records_in_sorted_order_witness :
    scanSyncEntry envC6 ⟨false, some "/flat"⟩ 5 emptySt =
      some (Except.ok
        [⟨"/flat/node_modules/@baz/buzz", none, "buzz", "0.1.0"⟩,
         ⟨"/flat/node_modules/@baz/fizz", none, "fizz", "0.1.0"⟩,
         ⟨"/flat/node_modules/@fu/buzz", none, "buzz", "1.0.0"⟩,
         ⟨"/flat/node_modules/@fu/fizz", none, "fizz", "1.0.0"⟩,
         ⟨"/flat/node_modules/bar", none, "bar", "1.0.0"⟩,
         ⟨"/flat/node_modules/foo", none, "foo", "1.0.0"⟩,
         ⟨"/flat", none, "flat", "1.0.0"⟩],
        ⟨[("/flat",
            ["/flat/node_modules/@baz/buzz/package.json",
             "/flat/node_modules/@baz/fizz/package.json",
             "/flat/node_modules/@fu/buzz/package.json",
             "/flat/node_modules/@fu/fizz/package.json",
             "/flat/node_modules/bar/package.json",
             "/flat/node_modules/foo/package.json",
             "/flat/package.json"])], []⟩) ∧
    (∃ rel : List String, List.Sorted sortLe rel ∧
      rel.Perm (withOwn envC6 "/flat") ∧
      [⟨"/flat/node_modules/@baz/buzz", none, "buzz", "0.1.0"⟩,
       ⟨"/flat/node_modules/@baz/fizz", none, "fizz", "0.1.0"⟩,
       ⟨"/flat/node_modules/@fu/buzz", none, "buzz", "1.0.0"⟩,
       ⟨"/flat/node_modules/@fu/fizz", none, "fizz", "1.0.0"⟩,
       ⟨"/flat/node_modules/bar", none, "bar", "1.0.0"⟩,
       ⟨"/flat/node_modules/foo", none, "foo", "1.0.0"⟩,
       (⟨"/flat", none, "flat", "1.0.0"⟩ : Package)] =
        rel.map (fun r => getPackage envC6 (dirname (pathJoin "/flat" r)))) :=
  ⟨by decide,
    c6_records_in_sorted_order envC6 true ⟨false, some "/flat"⟩ 5 "/flat"
      [⟨"/flat/node_modules/@baz/buzz", none, "buzz", "0.1.0"⟩,
       ⟨"/flat/node_modules/@baz/fizz", none, "fizz", "0.1.0"⟩,
       ⟨"/flat/node_modules/@fu/buzz", none, "buzz", "1.0.0"⟩,
       ⟨"/flat/node_modules/@fu/fizz", none, "fizz", "1.0.0"⟩,
       ⟨"/flat/node_modules/bar", none, "bar", "1.0.0"⟩,
       ⟨"/flat/node_modules/foo", none, "foo", "1.0.0"⟩,
       ⟨"/flat", none, "flat", "1.0.0"⟩]
      ⟨[("/flat",
          ["/flat/node_modules/@baz/buzz/package.json",
           "/flat/node_modules/@baz/fizz/package.json",
           "/flat/node_modules/@fu/buzz/package.json",
           "/flat/node_modules/@fu/fizz/package.json",
           "/flat/node_modules/bar/package.json",
           "/flat/node_modules/foo/package.json",
           "/flat/package.json"])], []⟩ [] (by decide) (by decide)⟩

end Pacscan

namespace Pacscan

/-! ## Claim C5: the caches never change observable output -/

theorem PValid_nil (env : Env) : PValid env [] := by
  intro d c hm
  cases hm

theorem findBaseDirectory_cache_transparent (env : Env) :
    ∀ (fuel : Nat) (d : String) (r : Option String)
      (pc₀ pc : List (String × String)),
      findBaseDirectory env fuel [] d = some (r, pc₀) →
      PValid env pc →
      ∃ pc', findBaseDirectory env fuel pc d = some (r, pc') ∧ PValid env pc'
  | 0, d => by
    intro r pc₀ pc h hv
    simp [findBaseDirectory] at h
  | fuel + 1, d => by
    intro r pc₀ pc h hv
    cases hp : findPackageDirectory env d with
    | none =>
      have hfr : findBaseDirectory env (fuel + 1) [] d = some (none, []) := by
        simp [findBaseDirectory, alookup, hp]
      rw [hfr] at h
      obtain ⟨h₁, -⟩ := Prod.mk.injEq .. ▸ Option.some.inj h
      have hmiss : alookup pc d = none := by
        cases hl : alookup pc d with
        | none => rfl
        | some c =>
          have hm := alookup_mem pc d c hl
          have h₂ := (hv d c hm).1
          rw [hp] at h₂
          exact absurd h₂ (by simp)
      refine ⟨pc, ?_, hv⟩
      rw [← h₁]
      simp [findBaseDirectory, hmiss, hp]
    | some c =>
      have hstep0 := findBaseDirectory_step env fuel [] d c rfl hp
      by_cases hnm : basename (adjustedParentDir c) = "node_modules"
      · rw [hstep0, if_pos hnm] at h
        cases hin : findBaseDirectory env fuel [] (adjustedParentDir c) with
        | none => rw [hin] at h; exact absurd h (by simp)
        | some rp =>
          obtain ⟨r₁, pc₁⟩ := rp
          rw [hin] at h
          obtain ⟨h₁, -⟩ := Prod.mk.injEq .. ▸ Option.some.inj h
          have hmiss : alookup pc d = none := by
            cases hl : alookup pc d with
            | none => rfl
            | some c₂ =>
              have hm := alookup_mem pc d c₂ hl
              obtain ⟨he, hne⟩ := hv d c₂ hm
              rw [hp] at he
              have hc₂ : c = c₂ := Option.some.inj he
              rw [← hc₂] at hne
              exact absurd hnm hne
          obtain ⟨pc', hrec, hv'⟩ := findBaseDirectory_cache_transparent env
            fuel (adjustedParentDir c) r₁ pc₁ pc hin hv
          refine ⟨pc', ?_, hv'⟩
          rw [findBaseDirectory_step env fuel pc d c hmiss hp, if_pos hnm,
            hrec, ← h₁]
      · rw [hstep0, if_neg hnm] at h
        obtain ⟨h₁, -⟩ := Prod.mk.injEq .. ▸ Option.some.inj h
        cases hl : alookup pc d with
        | some c₂ =>
          have hm := alookup_mem pc d c₂ hl
          obtain ⟨he, -⟩ := hv d c₂ hm
          rw [hp] at he
          have hc₂ : c = c₂ := Option.some.inj he
          refine ⟨pc, ?_, hv⟩
          have hhit : findBaseDirectory env (fuel + 1) pc d =
              some (some c₂, pc) := by
            simp [findBaseDirectory, hl]
          rw [hhit, ← hc₂, ← h₁]
        | none =>
          refine ⟨(d, c) :: pc, ?_, ?_⟩
          · rw [findBaseDirectory_step env fuel pc d c hl hp, if_neg hnm,
              ← h₁]
          · intro d₂ c₂ hm
            rcases List.mem_cons.mp hm with hdc | hdc
            · obtain ⟨h₂d, h₂c⟩ := Prod.mk.injEq .. ▸ hdc
              subst h₂d
              subst h₂c
              exact ⟨hp, hnm⟩
            · exact hv d₂ c₂ hdc

theorem findBaseDirectory_empty_valid (env : Env) (fuel : Nat) (d : String)
    (r : Option String) (pc₀ : List (String × String))
    (h : findBaseDirectory env fuel [] d = some (r, pc₀)) :
    PValid env pc₀ := by
  obtain ⟨pc', h', hv'⟩ := findBaseDirectory_cache_transparent env fuel d r
    pc₀ [] h (PValid_nil env)
  rw [h] at h'
  obtain ⟨-, h₂⟩ := Prod.mk.injEq .. ▸ Option.some.inj h'
  exact h₂ ▸ hv'

end Pacscan

namespace Pacscan

theorem resolveBaseDirectory_cache_transparent (env : Env) (opts : Options)
    (fuel : Nat) (e : Except String (Option String))
    (pc₀ pc : List (String × String))
    (h : resolveBaseDirectory env opts fuel [] = some (e, pc₀))
    (hv : PValid env pc) :
    ∃ pc', resolveBaseDirectory env opts fuel pc = some (e, pc') ∧
      PValid env pc' := by
  unfold resolveBaseDirectory at h ⊢
  set src := resolveSource env opts with hsrc
  obtain ⟨fp?, pkg?⟩ := src
  cases fp? with
  | none =>
    replace h :
        some ((Except.error "Could not resolve base directory as file was missing" : Except String (Option String)),
          ([] : List (String × String))) = some (e, pc₀) := h
    obtain ⟨h₁, -⟩ := Prod.mk.injEq .. ▸ Option.some.inj h
    exact ⟨pc, by rw [← h₁], hv⟩
  | some fp =>
    cases pkg? with
    | none =>
      replace h :
          some ((Except.ok (some (if env.isDir fp = true then fp
              else dirname fp)) : Except String (Option String)),
            ([] : List (String × String))) = some (e, pc₀) := h
      obtain ⟨h₁, -⟩ := Prod.mk.injEq .. ▸ Option.some.inj h
      exact ⟨pc, by rw [← h₁], hv⟩
    | some pkg =>
      replace h :
          (if opts.includeParents = true then
            match findBaseDirectory env fuel [] pkg.directory with
            | none => none
            | some (r, pc₁) => some (Except.ok r, pc₁)
          else some (Except.ok (some pkg.directory), [])) =
            some (e, pc₀) := h
      show ∃ pc',
        ((if opts.includeParents = true then
            match findBaseDirectory env fuel pc pkg.directory with
            | none => none
            | some (r, pc₁) => some (Except.ok r, pc₁)
          else some (Except.ok (some pkg.directory), pc)) =
            some (e, pc')) ∧ PValid env pc'
      by_cases hip : opts.includeParents = true
      · rw [if_pos hip] at h ⊢
        cases hin : findBaseDirectory env fuel [] pkg.directory with
        | none => rw [hin] at h; exact absurd h (by simp)
        | some rp =>
          obtain ⟨r₁, pc₁⟩ := rp
          rw [hin] at h
          obtain ⟨h₁, h₂⟩ := Prod.mk.injEq .. ▸ Option.some.inj h
          obtain ⟨pc', hrec, hv'⟩ := findBaseDirectory_cache_transparent
            env fuel pkg.directory r₁ pc₁ pc hin hv
          refine ⟨pc', ?_, hv'⟩
          rw [hrec, ← h₁]
      · rw [if_neg hip] at h ⊢
        obtain ⟨h₁, -⟩ := Prod.mk.injEq .. ▸ Option.some.inj h
        exact ⟨pc, by rw [← h₁], hv⟩

theorem resolveBaseDirectory_empty_valid (env : Env) (opts : Options)
    (fuel : Nat) (e : Except String (Option String))
    (pc₀ : List (String × String))
    (h : resolveBaseDirectory env opts fuel [] = some (e, pc₀)) :
    PValid env pc₀ := by
  obtain ⟨pc', h', hv'⟩ := resolveBaseDirectory_cache_transparent env opts
    fuel e pc₀ [] h (PValid_nil env)
  rw [h] at h'
  obtain ⟨-, h₂⟩ := Prod.mk.injEq .. ▸ Option.some.inj h'
  exact h₂ ▸ hv'

end Pacscan

namespace Pacscan

/-- **C5.** For a fixed environment and options, a scan that succeeded
from empty caches yields the same observable result when repeated with the
caches it populated, and clearing the caches and scanning a third time
again yields that same result: the caches never change the observable
output of a scan. -/
theorem c5_caches_transparent (env : Env) (sync : Bool) (opts : Options)
    (fuel : Nat) (r₁ : Except String (List Package)) (st₁ : St)
    (h1 : scanModel env sync opts fuel emptySt = some (r₁, st₁)) :
    (∃ st₂, scanModel env sync opts fuel st₁ = some (r₁, st₂)) ∧
    scanModel env sync opts fuel (clearCache st₁) = some (r₁, st₁) := by
  refine ⟨?_, h1⟩
  unfold scanModel at h1
  cases hres : resolveBaseDirectory env opts fuel emptySt.parents with
  | none => rw [hres] at h1; exact absurd h1 (by simp)
  | some epc =>
    obtain ⟨e, pc₀⟩ := epc
    rw [hres] at h1
    have hres0 : resolveBaseDirectory env opts fuel [] = some (e, pc₀) :=
      hres
    have hv₀ : PValid env pc₀ :=
      resolveBaseDirectory_empty_valid env opts fuel e pc₀ hres0
    obtain ⟨pc', hres', hv'⟩ := resolveBaseDirectory_cache_transparent env
      opts fuel e pc₀ pc₀ hres0 hv₀
    cases e with
    | error msg =>
      replace h1 :
          some ((Except.error msg : Except String (List Package)),
            (⟨emptySt.avail, pc₀⟩ : St)) = some (r₁, st₁) := h1
      obtain ⟨h₁, h₂⟩ := Prod.mk.injEq .. ▸ Option.some.inj h1
      refine ⟨⟨st₁.avail, pc'⟩, ?_⟩
      unfold scanModel
      have hpar : st₁.parents = pc₀ := by rw [← h₂]
      rw [hpar, hres']
      rw [← h₁]
    | ok od =>
      cases od with
      | none =>
        replace h1 :
            (none : Option (Except String (List Package) × St)) =
              some (r₁, st₁) := h1
        exact absurd h1 (by simp)
      | some D =>
        replace h1 :
            some ((Except.ok
                (((findAvailablePackagePaths env sync [] D).1).map
                  (fun filePath => getPackage env (dirname filePath))) :
                Except String (List Package)),
              (⟨(findAvailablePackagePaths env sync [] D).2, pc₀⟩ : St)) =
              some (r₁, st₁) := h1
        rw [findAvailablePackagePaths_miss env sync [] D rfl] at h1
        replace h1 :
            some ((Except.ok ((freshAvailList env D).map
                (fun filePath => getPackage env (dirname filePath))) :
                Except String (List Package)),
              (⟨[(D, freshAvailList env D)], pc₀⟩ : St)) =
              some (r₁, st₁) := h1
        obtain ⟨h₁, h₂⟩ := Prod.mk.injEq .. ▸ Option.some.inj h1
        have hpar : st₁.parents = pc₀ := by rw [← h₂]
        have hav : st₁.avail = [(D, freshAvailList env D)] := by rw [← h₂]
        have hhit : alookup st₁.avail D = some (freshAvailList env D) := by
          rw [hav]
          simp [alookup]
        refine ⟨⟨[(D, freshAvailList env D)], pc'⟩, ?_⟩
        unfold scanModel
        rw [hpar, hres']
        show some ((Except.ok
            (((findAvailablePackagePaths env sync st₁.avail D).1).map
              (fun filePath => getPackage env (dirname filePath))) :
            Except String (List Package)),
          (⟨(findAvailablePackagePaths env sync st₁.avail D).2, pc'⟩ : St)) =
          some (r₁, ⟨[(D, freshAvailList env D)], pc'⟩)
        rw [findAvailablePackagePaths_hit env sync st₁.avail D
          (freshAvailList env D) hhit]
        rw [hav, ← h₁]

/-- Environment for the C5 witness. -/
def envC5 : Env where
  glob := fun pat cwd =>
    if pat = "**/node_modules/*/package.json" ∧ cwd = "/app" then
      ["node_modules/foo/package.json"]
    else []
  pkgDir := fun p => if p = "/app" then some "/app" else none
  isDir := fun _ => true
  manifest := fun d =>
    if d = "/app" then ⟨"app", "1.0.0", none⟩ else ⟨"foo", "1.0.0", none⟩
  callers := []

theorem c5_caches_transparent_witness :
    scanModel envC5 true ⟨false, some "/app"⟩ 5 emptySt =
      some (Except.ok
        [⟨"/app/node_modules/foo", none, "foo", "1.0.0"⟩,
         ⟨"/app", none, "app", "1.0.0"⟩],
        ⟨[("/app",
            ["/app/node_modules/foo/package.json", "/app/package.json"])],
          []⟩) ∧
    ((∃ st₂, scanModel envC5 true ⟨false, some "/app"⟩ 5
        ⟨[("/app",
            ["/app/node_modules/foo/package.json", "/app/package.json"])],
          []⟩ =
        some (Except.ok
          [⟨"/app/node_modules/foo", none, "foo", "1.0.0"⟩,
           ⟨"/app", none, "app", "1.0.0"⟩], st₂)) ∧
      scanModel envC5 true ⟨false, some "/app"⟩ 5
          (clearCache ⟨[("/app",
            ["/app/node_modules/foo/package.json", "/app/package.json"])],
            []⟩) =
        some (Except.ok
          [⟨"/app/node_modules/foo", none, "foo", "1.0.0"⟩,
           ⟨"/app", none, "app", "1.0.0"⟩],
          ⟨[("/app",
              ["/app/node_modules/foo/package.json", "/app/package.json"])],
            []⟩)) :=
  ⟨by decide,
    c5_caches_transparent envC5 true ⟨false, some "/app"⟩ 5
      (Except.ok
        [⟨"/app/node_modules/foo", none, "foo", "1.0.0"⟩,
         ⟨"/app", none, "app", "1.0.0"⟩])
      ⟨[("/app",
          ["/app/node_modules/foo/package.json", "/app/package.json"])],
        []⟩ (by decide)⟩

end Pacscan
